import Mathlib

/-!
Shallow embedding of `src/app.py` (AZaboobacker/airlyft), a single-file
Streamlit application that generates code with an LLM, publishes it to a
GitHub repository, provisions a secret, creates a Heroku app and tracks
status rows in an Airtable ledger.

Python strings are embedded as `List Char`; identifiers (module names,
package names, repository names) that are only ever compared for equality
are embedded as `String`.  Every remote call of the script is modelled by
an explicit outcome carried in an environment record, and the handlers are
modelled as state-passing functions over those outcomes.
-/

namespace Airlyft

/-! ### Code-block extraction (app.py line 133)

`re.search(r'```python\n(.*?)\n```', message_content, re.DOTALL).group(1)`.

`re.search` returns the match at the leftmost starting position at which
the whole pattern can match; the lazy group `(.*?)` takes the shortest
interior, i.e. it stops at the first later occurrence of the closing
delimiter; `re.DOTALL` lets `.` match newline, so the interior may span
lines.  The pattern is anchored nowhere, so the opening delimiter may be
matched at any offset of the text.
-/

/-- The literal opening delimiter of the pattern. -/
def openTag : List Char := ("```python\n").toList

/-- The literal closing delimiter of the pattern. -/
def closeTag : List Char := ("\n```").toList

/-- Index of the first occurrence of `pat` in `s`
(the position at which `pat` is a prefix of the remaining text). -/
def findPat (pat : List Char) : List Char → Option Nat
  | [] => if pat.isEmpty then some 0 else none
  | c :: t => if pat.isPrefixOf (c :: t) then some 0 else (findPat pat t).map (· + 1)

/-- Attempt to match the whole pattern at the current position: the opening
delimiter must start here, and the lazy interior runs to the first
subsequent occurrence of the closing delimiter. -/
def tryMatchAt (s : List Char) : Option (List Char) :=
  if openTag.isPrefixOf s then
    (findPat closeTag (s.drop openTag.length)).map (fun k => (s.drop openTag.length).take k)
  else none

/-- `re.search` for the code-block pattern: try every start position from
the left, returning the captured group of the first successful match. -/
def reSearchPythonBlock : List Char → Option (List Char)
  | [] => none
  | c :: t =>
    match tryMatchAt (c :: t) with
    | some r => some r
    | none => reSearchPythonBlock t

/-! ### Dependency inference (app.py lines 74-96) -/

/-- One statement of the parsed generated source, as seen by the
`ast.walk` loop of `extract_imports`: a plain `import` (with its list of
dotted names), a `from ... import ...` (with its module), or any other
statement. -/
inductive PyStmt where
  | imp (names : List String)
  | impFrom (module : String)
  | other
deriving DecidableEq

/-- `name.split('.')[0]` — the top-level part of a dotted module name,
i.e. the characters before the first dot. -/
def topLevel (name : String) : String :=
  String.mk (name.toList.takeWhile (fun c => !(c == '.')))

/-- Model of adding to a Python `set` (membership-deduplicating insert;
iteration order of the set is quantified over separately where it
matters). -/
def insertOnce (l : List String) (x : String) : List String :=
  if l.contains x then l else l ++ [x]

/-- `extract_imports` (app.py lines 74-83): collect the top-level module
name of every `import`/`from` statement, deduplicated. -/
def extract_imports (tree : List PyStmt) : List String :=
  tree.foldl
    (fun acc stmt =>
      match stmt with
      | PyStmt.imp names => names.foldl (fun a n => insertOnce a (topLevel n)) acc
      | PyStmt.impFrom m => insertOnce acc (topLevel m)
      | PyStmt.other => acc)
    []

/-- The `base_requirements` dict of `generate_requirements`
(app.py lines 86-95). -/
def requirementsTable : List (String × String) :=
  [("streamlit", "streamlit"),
   ("openai", "openai"),
   ("requests", "requests"),
   ("github", "PyGithub"),
   ("dotenv", "python-dotenv"),
   ("nacl", "pynacl"),
   ("plotly", "plotly"),
   ("pyairtable", "pyairtable")]

/-- `base_requirements.get(lib)` — association-list lookup. -/
def tableGet (lib : String) : Option String :=
  (requirementsTable.find? (fun p => p.1 == lib)).map (fun p => p.2)

/-- The list comprehension of app.py line 96:
`[base_requirements.get(lib, lib) for lib in imports if lib in base_requirements]`. -/
def pkgList (imports : List String) : List String :=
  (imports.filter (fun lib => (tableGet lib).isSome)).map
    (fun lib => (tableGet lib).getD lib)

/-- `generate_requirements` (app.py line 96): the newline-join of the
package list. -/
def generate_requirements (imports : List String) : List Char :=
  List.intercalate (['\n']) ((pkgList imports).map String.toList)

/-- Python's `in` on strings: substring containment, modelled as "the
pattern occurs at some position". -/
def strContains (s pat : List Char) : Bool := (findPat pat s).isSome

/-- The deploy handler's manifest fix-up (app.py lines 215-216):
`if 'streamlit' not in requirements: requirements = 'streamlit\n' + requirements`.
Python `in` on strings is substring containment. -/
def finalRequirements (imports : List String) : List Char :=
  let reqs := generate_requirements imports
  if strContains reqs (("streamlit").toList) then reqs
  else ("streamlit\n").toList ++ reqs

/-! ### Repository-name collision handling (app.py lines 198-202) -/

/-- The deploy handler's repository-name selection: if any existing
repository has the intended name, append a dash and the 8-character random
suffix (drawn from `uuid4`), with no re-check of the suffixed name. -/
def selectRepoName (existing : List String) (name suffix : String) : String :=
  if existing.any (fun r => r == name) then name ++ ("-") ++ suffix else name

/-! ### Python name resolution

The module-level names bound by app.py.  `base64` is referenced at lines
144 and 305 but appears nowhere in the import block (lines 1-16), and
`repo_name_input` is referenced at lines 162 and 167 but is assigned
nowhere in the file.  Evaluating such a name raises `NameError`.
-/

/-- The names bound by the import block of app.py (lines 1-16). -/
def appModuleNames : List String :=
  ["st", "OpenAI", "requests", "Github", "load_dotenv", "os", "time", "re",
   "uuid", "ast", "zipfile", "BytesIO", "Table", "nacl"]

/-- The global names bound by the time line 162 executes: the import
block, the configuration block (lines 19-44), the form values (lines
60-63), the helper definitions (lines 66-113), and the locals of the
generation step. -/
def submissionScopeNames : List String :=
  appModuleNames ++
  ["openai_api_key", "github_token", "heroku_api_key", "airtable_api_key",
   "airtable_base_id", "airtable_table_name", "required_secrets", "secret",
   "client", "airtable", "app_prompt", "app_type", "submitted",
   "status_dict", "extract_imports", "generate_requirements",
   "update_status", "display_status", "response", "message_content",
   "code_block", "zip_content", "zip_data", "zip_ref", "f", "e",
   "unique_id"]

/-- Python name lookup: `some` if the name is bound in the scope,
`none` (a `NameError`) otherwise. -/
def pyLookup (n : String) (scope : List String) : Option String :=
  if scope.contains n then some n else none

/-- Message of the `NameError` raised by `encrypt_secret` (app.py line
305): `base64` is never imported. -/
def base64NameError : String := "NameError: name base64 is not defined"

/-- Message of the `NameError` raised at app.py line 162:
`repo_name_input` is never defined. -/
def repoNameInputError : String := "NameError: name repo_name_input is not defined"

/-- `encrypt_secret` (app.py lines 301-305): seal the secret value
against the repository public key with a libsodium sealed box (abstracted
as the `sealFn` parameter), then evaluate `base64.b64encode` on the result.
Evaluating the name `base64` in the module scope raises `NameError`
because the module is never imported; the sealed bytes are returned
unencoded in the (dead) branch in which the name would resolve. -/
def encrypt_secret (sealFn : String → String → String)
    (publicKey secretValue : String) : Except String String :=
  let encrypted := sealFn publicKey secretValue
  match pyLookup ("base64") appModuleNames with
  | none => Except.error base64NameError
  | some _ => Except.ok encrypted

/-- `requests.Response.raise_for_status`: raises exactly for status codes
in `[400, 600)`. -/
def raisesForStatus (status : Nat) : Bool := decide (400 ≤ status ∧ status < 600)

/-! ### The ledger (Airtable) operations issued by app.py

The only writes the script ever performs are `airtable.create(new_row)`
with `"Status": "In progress"` (lines 163-173) and
`airtable.update(record_id, {"Status": "Done"})` (line 401).  Airtable
`create` always appends a fresh record (the server mints a new record
id); `update` rewrites fields of the record with the given id.
-/

/-- A ledger write operation. -/
inductive LedgerOp where
  | create (status : String)
  | update (rid : Nat) (status : String)
deriving DecidableEq

/-- A ledger: list of (record id, status) pairs. -/
abbrev Ledger := List (Nat × String)

/-- A record id not yet present in the ledger (Airtable mints fresh ids
on `create`). -/
def freshId (s : Ledger) : Nat := (s.map (fun p => p.1)).foldr max 0 + 1

/-- Apply one ledger operation. -/
def applyOp (s : Ledger) : LedgerOp → Ledger
  | LedgerOp.create status => s ++ [(freshId s, status)]
  | LedgerOp.update rid status =>
    s.map (fun p => if p.1 == rid then (p.1, status) else p)

/-- Apply a sequence of ledger operations. -/
def applyOps (s : Ledger) (ops : List LedgerOp) : Ledger := ops.foldl applyOp s

/-- Status of the record with the given id. -/
def getStatus (s : Ledger) (rid : Nat) : Option String :=
  (s.find? (fun p => p.1 == rid)).map (fun p => p.2)

/-- The ledger status written at row creation (app.py line 168). -/
def inProgressStatus : String := "In progress"

/-- The ledger status written after deployment (app.py line 401). -/
def doneStatus : String := "Done"

/-- The ledger operations the program can issue: row creation with status
`"In progress"` (submission handler) and a status update to `"Done"`
(deploy handler).  No other ledger write occurs in app.py. -/
def ProgramOp (op : LedgerOp) : Prop :=
  op = LedgerOp.create inProgressStatus ∨ ∃ rid, op = LedgerOp.update rid doneStatus

/-! ### The submission handler (app.py lines 117-179) -/

/-- Outcomes of the environment for one form submission.  `genOutcome`
abstracts the whole generation step (the OpenAI call, the
`ChatCompletion` rename and the fenced-block extraction, lines 122-155):
`ok` carries the stored code block, `error` any exception caught by the
`except` at line 156. -/
structure SubmitEnv where
  appPrompt : String
  genOutcome : Except String (List Char)
  uuidValue : String
  airtableCreateOk : Bool

/-- Observable result of one form submission. -/
structure SubmitResult where
  storedCode : Option (List Char)
  genErrorShown : Bool
  ledgerInserted : Bool
  sessionUuid : Option String
  uncaughtError : Option String
deriving DecidableEq

/-- The submission handler (app.py lines 117-179).  The generation step
runs inside `try`/`except` (an exception is displayed and execution
continues); the Airtable block at lines 160-179 then runs
unconditionally, and its first statements (lines 161-162) evaluate
`repo_name_input`, a name bound nowhere, outside any `try` — so the
run dies before `airtable.create` and before the session uuid is
stored. -/
def submitHandler (env : SubmitEnv) : SubmitResult :=
  let genPart : Option (List Char) × Bool :=
    match env.genOutcome with
    | Except.ok cb => (some cb, false)
    | Except.error _ => (none, true)
  match pyLookup ("repo_name_input") submissionScopeNames with
  | none =>
    { storedCode := genPart.1
      genErrorShown := genPart.2
      ledgerInserted := false
      sessionUuid := none
      uncaughtError := some repoNameInputError }
  | some _ =>
    -- dead branch: `repo_name_input` is not in scope
    { storedCode := genPart.1
      genErrorShown := genPart.2
      ledgerInserted := env.airtableCreateOk
      sessionUuid := if env.airtableCreateOk then some env.uuidValue else none
      uncaughtError := none }

/-! ### The deploy handler (app.py lines 183-418, Streamlit branch) -/

/-- The fixed file set pushed to the repository (app.py lines 210-285). -/
def deployFileNames : List String :=
  ["app.py", "requirements.txt", "Procfile", "setup.sh", "Dockerfile",
   "entrypoint.sh", "heroku.yml"]

/-- Heroku app-name sanitisation (app.py line 324):
`re.sub(r'[^a-z0-9-]', '', repo_name.lower())[:20].strip('-')`. -/
def sanitizeHerokuName (s : String) : String :=
  let kept := (s.toList.map Char.toLower).filter
    (fun c => (decide ('a' ≤ c ∧ c ≤ 'z') || decide ('0' ≤ c ∧ c ≤ '9') || c == '-'))
  let truncated := kept.take 20
  let stripped := ((truncated.dropWhile (fun c => c == '-')).reverse.dropWhile
    (fun c => c == '-')).reverse
  String.mk stripped

/-- Environment of one deploy-button press: session contents and the
outcome of every remote call the handler may issue. -/
structure DeployEnv where
  tree : List PyStmt          -- `ast.parse` of the stored code block
  appName : String            -- `st.session_state['app_name']`
  existingRepos : List String -- names observed from `user.get_repos()`
  suffix1 : String            -- `str(uuid.uuid4())[:8]` for the repo name
  suffix2 : String            -- `str(uuid.uuid4())[:8]` for the Heroku name
  createRepoOk : Bool
  createFileOk : Bool
  pubKeyStatus : Nat          -- status of the public-key GET
  pubKey : String
  herokuApiKey : String
  sealFn : String → String → String  -- the sealed-box encryption
  secretPutStatus : Nat       -- status of the secret PUT
  herokuStatus : Nat          -- status of the Heroku app-creation POST
  updateFileOk : Bool
  hasUuid : Bool              -- `'uuid' in st.session_state`
  recordFound : Bool          -- the Airtable formula query finds the row
  airtableUpdateOk : Bool

/-- Observable result of one deploy-button press. -/
structure DeployResult where
  repoName : Option String := none
  createdFiles : List String := []
  secretUploaded : Bool := false
  herokuCreated : Bool := false
  herokuAppName : Option String := none
  ciFileCommitted : Bool := false
  updatedFiles : List String := []
  ledgerDone : Bool := false
  errorMsg : Option String := none
  stopped : Bool := false

/-- Error text used for modelled remote-call failures. -/
def remoteCallError : String := "remote call failed"

/-- The Heroku-deployment block (app.py lines 320-406): create the
platform app (halting via `st.stop` on a non-201 response), commit the CI
workflow file, re-commit all tracked files to trigger the workflow, and
update the ledger row to `"Done"` when a session uuid exists and the row
is found. -/
def herokuPhase (repoFullName : String) (env : DeployEnv) (base : DeployResult) :
    DeployResult :=
  let herokuAppName := sanitizeHerokuName repoFullName ++ ("-") ++ env.suffix2
  if env.herokuStatus == 201 then
    let r1 := { base with herokuCreated := true, herokuAppName := some herokuAppName }
    if env.createFileOk then
      let r2 := { r1 with ciFileCommitted := true }
      if env.updateFileOk then
        let r3 := { r2 with updatedFiles := deployFileNames }
        if env.hasUuid && env.recordFound && env.airtableUpdateOk then
          { r3 with ledgerDone := true }
        else r3
      else { r2 with errorMsg := some remoteCallError }
    else { r1 with errorMsg := some remoteCallError }
  else
    { base with errorMsg := some remoteCallError, stopped := true }

/-- The deploy handler, Streamlit branch (app.py lines 190-406): pick the
repository name (suffixing on collision), create the repository, push the
seven files, fetch the secret public key, seal the Heroku API key
(`encrypt_secret` — which raises `NameError` on `base64`), upload the
secret, then run the Heroku phase.  Any exception is caught by the
`except` at line 416, which displays it and ends the handler. -/
def deployStreamlit (env : DeployEnv) : DeployResult :=
  let repoName :=
    if env.existingRepos.any (fun r => r == env.appName) then
      env.appName ++ ("-") ++ env.suffix1
    else env.appName
  if env.createRepoOk then
    if env.createFileOk then
      let _requirements := finalRequirements (extract_imports env.tree)
      let base : DeployResult :=
        { repoName := some repoName, createdFiles := deployFileNames }
      if raisesForStatus env.pubKeyStatus then
        { base with errorMsg := some remoteCallError }
      else
        match encrypt_secret env.sealFn env.pubKey env.herokuApiKey with
        | Except.error e => { base with errorMsg := some e }
        | Except.ok _ =>
          if raisesForStatus env.secretPutStatus then
            { base with errorMsg := some remoteCallError }
          else
            herokuPhase repoName env { base with secretUploaded := true }
    else
      { repoName := some repoName, errorMsg := some remoteCallError }
  else
    { errorMsg := some remoteCallError }

/-! ### The auxiliary-material triggers (app.py lines 455-493) -/

/-- Observable result of one auxiliary-material button press. -/
structure TriggerResult where
  precondFailed : Bool := false   -- "No app data found." (no uuid in session)
  failureReported : Bool := false -- the `except` branch ran
  successReported : Bool := false -- `st.success` ran
  ledgerOps : List LedgerOp := [] -- ledger writes performed by the handler

/-- Either auxiliary trigger handler (pitch deck: lines 455-473; business
plan: lines 475-493; they differ only in the two payload flags): if no
uuid is in the session, report the precondition failure; otherwise POST
the webhook payload and `raise_for_status` it, reporting failure on an
exception.  Neither handler touches the Airtable ledger. -/
def auxTrigger (hasUuid : Bool) (webhookStatus : Nat) : TriggerResult :=
  if hasUuid then
    if raisesForStatus webhookStatus then
      { failureReported := true }
    else
      { successReported := true }
  else
    { precondFailed := true }

/-! ### Concrete sample inputs used to exercise the definitions -/

/-- Sample reply text before the fenced block. -/
def sampleReplyPre : List Char := ("Sure! Here is your app:\n").toList

/-- Sample block interior (note the blank line). -/
def sampleBody : List Char := ("import streamlit as st\n\nst.write(1)").toList

/-- Sample reply text after the fenced block. -/
def samplePost : List Char := ("\nEnjoy!").toList

/-- A deploy environment in which every remote call would succeed. -/
def happyDeployEnv : DeployEnv :=
  { tree := [PyStmt.imp (["streamlit"])]
    appName := "demo-app"
    existingRepos := []
    suffix1 := "abc12345"
    suffix2 := "beef1234"
    createRepoOk := true
    createFileOk := true
    pubKeyStatus := 200
    pubKey := "pk"
    herokuApiKey := "hk"
    sealFn := fun _ _ => "sealed"
    secretPutStatus := 201
    herokuStatus := 201
    updateFileOk := true
    hasUuid := true
    recordFound := true
    airtableUpdateOk := true }

/-- A deploy environment whose Heroku app-creation POST fails. -/
def heroku503Env : DeployEnv := { happyDeployEnv with herokuStatus := 503 }

/-! ## General lemmas about the embedded string and ledger operations -/

theorem intercalate_singleton_cons {α : Type} (x : α) (a : List α) (l : List (List α))
    (h : l ≠ []) : List.intercalate [x] (a :: l) = a ++ x :: List.intercalate [x] l := by
  cases l with
  | nil => exact absurd rfl h
  | cons b r => simp [List.intercalate, List.intersperse_cons_cons]

theorem mem_infix_intercalate {α : Type} (x : α) {c : List α} {chunks : List (List α)}
    (h : c ∈ chunks) : c <:+: List.intercalate [x] chunks := by
  induction chunks with
  | nil => cases h
  | cons a l ih =>
    cases l with
    | nil =>
      have hc : c = a := by simpa using h
      subst hc
      have : List.intercalate [x] [c] = c := by simp [List.intercalate]
      rw [this]
    | cons b r =>
      rw [intercalate_singleton_cons x a (b :: r) (by simp)]
      rcases List.mem_cons.mp h with rfl | hm
      · have h1 : c <+: c ++ x :: List.intercalate [x] (b :: r) := List.prefix_append _ _
        exact List.IsPrefix.isInfix h1
      · have h2 := ih hm
        have h3 : List.intercalate [x] (b :: r) <:+ a ++ x :: List.intercalate [x] (b :: r) :=
          ⟨a ++ [x], by simp⟩
        exact List.IsInfix.trans h2 (List.IsSuffix.isInfix h3)

theorem findPat_of_first (pat : List Char) (hpat : pat ≠ []) (s : List Char) :
    ∀ (k : Nat), pat.isPrefixOf (s.drop k) = true →
    (∀ j, j < k → pat.isPrefixOf (s.drop j) = false) →
    findPat pat s = some k := by
  induction s with
  | nil =>
    intro k hk _
    rw [List.drop_nil] at hk
    cases pat with
    | nil => exact absurd rfl hpat
    | cons c t => simp at hk
  | cons c t ih =>
    intro k hk hmin
    cases k with
    | zero =>
      rw [List.drop_zero] at hk
      unfold findPat
      simp [hk]
    | succ k' =>
      have h0 : pat.isPrefixOf (c :: t) = false := by
        have h1 := hmin 0 (Nat.succ_pos _)
        rwa [List.drop_zero] at h1
      unfold findPat
      rw [h0]
      have hk' : pat.isPrefixOf (t.drop k') = true := by
        rwa [List.drop_succ_cons] at hk
      have hmin' : ∀ j, j < k' → pat.isPrefixOf (t.drop j) = false := by
        intro j hj
        have h2 := hmin (j + 1) (by omega)
        rwa [List.drop_succ_cons] at h2
      rw [ih k' hk' hmin']
      rfl

theorem isPrefixOf_drop_of_findPat (pat s : List Char) :
    ∀ k, findPat pat s = some k → pat.isPrefixOf (s.drop k) = true := by
  induction s with
  | nil =>
    intro k h
    unfold findPat at h
    by_cases hp : pat.isEmpty = true
    · rw [if_pos hp] at h
      obtain rfl : (0 : Nat) = k := Option.some.inj h
      have hpe : pat = [] := by
        cases pat with
        | nil => rfl
        | cons a b => simp at hp
      subst hpe
      simp
    · rw [if_neg hp] at h
      simp at h
  | cons c t ih =>
    intro k h
    unfold findPat at h
    by_cases hp : pat.isPrefixOf (c :: t) = true
    · rw [if_pos hp] at h
      obtain rfl : (0 : Nat) = k := Option.some.inj h
      rw [List.drop_zero]
      exact hp
    · rw [if_neg hp] at h
      cases hf : findPat pat t with
      | none => rw [hf] at h; simp at h
      | some k' =>
        rw [hf] at h
        have hk : k' + 1 = k := by simpa using h
        subst hk
        rw [List.drop_succ_cons]
        exact ih k' hf

theorem infix_split_append_cons {α : Type} {p a b : List α} {x : α}
    (hx : x ∉ p) (h : p <:+: a ++ x :: b) : p <:+: a ∨ p <:+: b := by
  obtain ⟨s1, t1, hst⟩ := h
  by_cases h1 : s1.length + p.length ≤ a.length
  · left
    have hsp : (s1 ++ p).length ≤ a.length := by
      rw [List.length_append]; omega
    have ha : a = ((s1 ++ p) ++ t1).take a.length := by rw [hst, List.take_left]
    rw [List.take_append_eq_append_take, List.take_of_length_le hsp] at ha
    exact ⟨s1, t1.take (a.length - (s1 ++ p).length), ha.symm⟩
  · by_cases h2 : a.length + 1 ≤ s1.length
    · right
      have hxb : a ++ x :: b = (a ++ [x]) ++ b := by simp
      have hb : b = ((s1 ++ p) ++ t1).drop (a.length + 1) := by
        rw [hst, hxb, List.drop_left']
        simp
      rw [List.drop_append_eq_append_drop, List.drop_append_eq_append_drop,
        (by omega : a.length + 1 - s1.length = 0), List.drop_zero,
        List.length_append,
        (by omega : a.length + 1 - (s1.length + p.length) = 0), List.drop_zero] at hb
      exact ⟨s1.drop (a.length + 1), t1, hb.symm⟩
    · exfalso
      have h2' : s1.length ≤ a.length := by omega
      have hlt : a.length - s1.length < p.length := by omega
      have hdrop : ((s1 ++ p) ++ t1).drop a.length = (a ++ x :: b).drop a.length := by
        rw [hst]
      rw [List.drop_left] at hdrop
      rw [List.drop_append_eq_append_drop, List.drop_append_eq_append_drop,
        List.drop_eq_nil_of_le h2', List.nil_append, List.length_append,
        (by omega : a.length - (s1.length + p.length) = 0), List.drop_zero] at hdrop
      cases hd : List.drop (a.length - s1.length) p with
      | nil =>
        have := List.drop_eq_nil_iff.mp hd
        omega
      | cons y ys =>
        rw [hd, List.cons_append] at hdrop
        have hxy : y = x := (List.cons.inj hdrop).1
        have hyp : y ∈ p := by
          have hym : y ∈ List.drop (a.length - s1.length) p := by
            rw [hd]; simp
          exact List.mem_of_mem_drop hym
        exact hx (hxy ▸ hyp)

theorem infix_intercalate_mem {α : Type} {x : α} {p : List α} {chunks : List (List α)}
    (hp : p ≠ []) (hx : x ∉ p) (h : p <:+: List.intercalate [x] chunks) :
    ∃ c ∈ chunks, p <:+: c := by
  induction chunks with
  | nil =>
    rw [show List.intercalate ([x]) ([] : List (List α)) = [] from rfl] at h
    exact absurd (List.infix_nil.mp h) hp
  | cons a l ih =>
    cases l with
    | nil =>
      have he : List.intercalate [x] [a] = a := by simp [List.intercalate]
      rw [he] at h
      exact ⟨a, by simp, h⟩
    | cons b r =>
      rw [intercalate_singleton_cons x a (b :: r) (by simp)] at h
      rcases infix_split_append_cons hx h with hc | hc
      · exact ⟨a, by simp, hc⟩
      · obtain ⟨c, hcm, hci⟩ := ih hc
        exact ⟨c, by simp [hcm], hci⟩

theorem headD_append_of_ne_nil {α : Type} (l r : List α) (d : α) (h : l ≠ []) :
    (l ++ r).headD d = l.headD d := by
  cases l with
  | nil => exact absurd rfl h
  | cons a t => rfl

theorem closeTag_drop_append_ne (n : Nat) (h1 : 1 ≤ n) (h3 : n ≤ 3) (r post : List Char) :
    List.drop n closeTag ++ r ≠ closeTag ++ post := by
  intro heq
  have hne : List.drop n closeTag ≠ [] := by
    have hn : n = 1 ∨ n = 2 ∨ n = 3 := by omega
    rcases hn with rfl | rfl | rfl <;> decide
  have hH := congrArg (fun l : List Char => l.headD (' ')) heq
  dsimp only at hH
  rw [headD_append_of_ne_nil _ _ _ hne,
    headD_append_of_ne_nil _ _ _ (by decide : closeTag ≠ [])] at hH
  have hn : n = 1 ∨ n = 2 ∨ n = 3 := by omega
  rcases hn with rfl | rfl | rfl <;> exact absurd hH (by decide)

theorem findPat_closeTag (t post : List Char) (h : ¬ closeTag <:+: t) :
    findPat closeTag (t ++ closeTag ++ post) = some t.length := by
  have hc4 : closeTag.length = 4 := by decide
  apply findPat_of_first closeTag (by decide) ((t ++ closeTag) ++ post) t.length
  · rw [List.append_assoc, List.drop_left]
    exact List.isPrefixOf_iff_prefix.mpr (List.prefix_append _ _)
  · intro j hj
    cases hb : closeTag.isPrefixOf (((t ++ closeTag) ++ post).drop j) with
    | false => rfl
    | true =>
      exfalso
      have hpre := List.isPrefixOf_iff_prefix.mp hb
      rw [List.drop_append_eq_append_drop, List.drop_append_eq_append_drop,
        List.length_append, hc4,
        (by omega : j - (t.length + 4) = 0), List.drop_zero,
        (by omega : j - t.length = 0), List.drop_zero] at hpre
      have halen : (t.drop j).length = t.length - j := by rw [List.length_drop]
      by_cases h4 : 4 ≤ (t.drop j).length
      · have htake : closeTag = (((t.drop j) ++ closeTag) ++ post).take closeTag.length :=
          List.prefix_iff_eq_take.mp hpre
        have hl1 : closeTag.length - ((t.drop j) ++ closeTag).length = 0 := by
          rw [List.length_append, hc4]; omega
        have hl2 : closeTag.length - (t.drop j).length = 0 := by
          rw [hc4]; omega
        rw [List.take_append_eq_append_take, hl1, List.take_zero, List.append_nil,
          List.take_append_eq_append_take, hl2, List.take_zero, List.append_nil] at htake
        have hpfx : closeTag <+: t.drop j := by
          rw [htake]
          exact List.take_prefix _ _
        have hsuf : t.drop j <:+ t := List.drop_suffix _ _
        have hinf : closeTag <:+: t := by
          have h5 := List.IsPrefix.isInfix hpfx
          have h6 := List.IsSuffix.isInfix hsuf
          exact List.IsInfix.trans h5 h6
        exact h hinf
      · have h1a : 1 ≤ (t.drop j).length := by omega
        have h3a : (t.drop j).length ≤ 3 := by omega
        obtain ⟨r, hr⟩ := hpre
        have hdrop := congrArg (List.drop (t.drop j).length) hr
        rw [List.drop_append_eq_append_drop,
          (by rw [hc4]; omega : (t.drop j).length - closeTag.length = 0), List.drop_zero,
          List.drop_append_eq_append_drop,
          (by rw [List.length_append, hc4]; omega :
            (t.drop j).length - ((t.drop j) ++ closeTag).length = 0), List.drop_zero,
          List.drop_left] at hdrop
        exact closeTag_drop_append_ne (t.drop j).length h1a h3a r post hdrop

theorem tryMatchAt_block (t post : List Char) (hint : ¬ closeTag <:+: t) :
    tryMatchAt (openTag ++ (t ++ closeTag ++ post)) = some t := by
  unfold tryMatchAt
  rw [if_pos (List.isPrefixOf_iff_prefix.mpr (List.prefix_append _ _))]
  rw [List.drop_left, findPat_closeTag t post hint]
  have htake : ((t ++ closeTag) ++ post).take t.length = t := by
    rw [List.append_assoc, List.take_left]
  simp [htake]

theorem reSearch_skip (c : Char) (t : List Char)
    (h : openTag.isPrefixOf (c :: t) = false) :
    reSearchPythonBlock (c :: t) = reSearchPythonBlock t := by
  simp [reSearchPythonBlock, tryMatchAt, h]

theorem reSearch_cons_some (c : Char) (t r : List Char)
    (h : tryMatchAt (c :: t) = some r) : reSearchPythonBlock (c :: t) = some r := by
  unfold reSearchPythonBlock
  rw [h]

theorem mem_le_foldr_max (l : List Nat) (a : Nat) (h : a ∈ l) : a ≤ l.foldr max 0 := by
  induction l with
  | nil => cases h
  | cons b t ih =>
    rcases List.mem_cons.mp h with rfl | hm
    · exact Nat.le_max_left _ _
    · exact Nat.le_trans (ih hm) (Nat.le_max_right _ _)

theorem getStatus_create (s : Ledger) (rid : Nat) (st : String)
    (h : (getStatus s rid).isSome) :
    getStatus (applyOp s (LedgerOp.create st)) rid = getStatus s rid := by
  unfold getStatus applyOp
  rw [List.find?_append]
  cases hf : s.find? (fun p => p.1 == rid) with
  | none => simp [getStatus, hf] at h
  | some p => simp [getStatus, hf]

theorem getStatus_create_fresh (s : Ledger) (st : String) :
    getStatus (applyOp s (LedgerOp.create st)) (freshId s) = some st := by
  unfold getStatus applyOp
  rw [List.find?_append]
  have hnone : s.find? (fun p => p.1 == freshId s) = none := by
    rw [List.find?_eq_none]
    intro p hp
    have h1 : p.1 ≤ (s.map (fun q => q.1)).foldr max 0 :=
      mem_le_foldr_max _ _ (List.mem_map_of_mem _ hp)
    simp only [freshId, beq_iff_eq]
    omega
  rw [hnone]
  simp

theorem find?_map_statusSet (t : Ledger) (rid rid' : Nat) (st : String) :
    List.find? (fun p => p.1 == rid)
      (t.map (fun p => if p.1 == rid' then (p.1, st) else p))
    = (t.find? (fun p => p.1 == rid)).map
        (fun p => if p.1 == rid' then (p.1, st) else p) := by
  induction t with
  | nil => rfl
  | cons p t ih =>
    simp only [List.map_cons, List.find?_cons]
    have hfst : ((if p.1 == rid' then (p.1, st) else p).1) = p.1 := by
      by_cases hq : (p.1 == rid') = true <;> simp [hq]
    rw [hfst]
    cases hp : (p.1 == rid) with
    | true => simp
    | false => simpa using ih

theorem getStatus_update_done (s : Ledger) (rid rid' : Nat)
    (h : getStatus s rid = some doneStatus) :
    getStatus (applyOp s (LedgerOp.update rid' doneStatus)) rid = some doneStatus := by
  unfold getStatus applyOp
  rw [find?_map_statusSet]
  unfold getStatus at h
  cases hf : s.find? (fun p => p.1 == rid) with
  | none => rw [hf] at h; simp at h
  | some p =>
    rw [hf] at h
    have hp2 : p.2 = doneStatus := by simpa using h
    by_cases hq : p.1 = rid' <;> simp [hq, hp2]

theorem status_forward (ops : List LedgerOp) (s : Ledger) (rid : Nat)
    (hops : ∀ op ∈ ops, ProgramOp op) (hdone : getStatus s rid = some doneStatus) :
    getStatus (applyOps s ops) rid = some doneStatus := by
  induction ops generalizing s with
  | nil => exact hdone
  | cons op rest ih =>
    have hop := hops op (List.mem_cons_self _ _)
    have hrest : ∀ o ∈ rest, ProgramOp o := fun o ho => hops o (List.mem_cons_of_mem _ ho)
    have hstep : getStatus (applyOp s op) rid = some doneStatus := by
      rcases hop with rfl | ⟨r, rfl⟩
      · rw [getStatus_create s rid inProgressStatus (by rw [hdone]; rfl)]
        exact hdone
      · exact getStatus_update_done _ _ _ hdone
    simp only [applyOps, List.foldl_cons]
    exact ih (applyOp s op) hrest hstep

theorem pkgList_chunk_mem (imports : List String) (c : List Char)
    (h : c ∈ (pkgList imports).map String.toList) :
    c ∈ (requirementsTable.map (fun p => p.2)).map String.toList := by
  obtain ⟨v, hv, rfl⟩ := List.mem_map.mp h
  apply List.mem_map_of_mem
  obtain ⟨lib, hlib, rfl⟩ := List.mem_map.mp hv
  have hsome : ((tableGet lib).isSome : Bool) = true := (List.mem_filter.mp hlib).2
  obtain ⟨w, hw⟩ := Option.isSome_iff_exists.mp hsome
  rw [hw, Option.getD_some]
  simp only [tableGet] at hw
  obtain ⟨pair, hpair, hpw⟩ := Option.map_eq_some'.mp hw
  have hmem := List.mem_of_find?_eq_some hpair
  rw [← hpw]
  exact List.mem_map_of_mem _ hmem

theorem chunk_no_newline (c : List Char)
    (h : c ∈ (requirementsTable.map (fun p => p.2)).map String.toList) :
    ('\n') ∉ c := by
  have hall : ∀ x ∈ (requirementsTable.map (fun p => p.2)).map String.toList,
      ('\n') ∉ x := by decide
  exact hall c h

/-! ## The claims -/

/-- C1: for every reply text containing exactly one fenced code block tagged
`python` (a unique occurrence of the opening delimiter, with a closing fence
and an interior that contains no closing fence of its own), the extraction
step returns that block's interior verbatim, blank lines included. -/
theorem c1_extraction_verbatim (pre t post : List Char)
    (honce : ∀ i, i < (pre ++ (openTag ++ (t ++ closeTag ++ post))).length →
      openTag.isPrefixOf ((pre ++ (openTag ++ (t ++ closeTag ++ post))).drop i) = true →
      i = pre.length)
    (hint : ¬ closeTag <:+: t) :
    reSearchPythonBlock (pre ++ (openTag ++ (t ++ closeTag ++ post))) = some t := by
  induction pre with
  | nil =>
    rw [List.nil_append]
    have hm := tryMatchAt_block t post hint
    cases hs : openTag ++ (t ++ closeTag ++ post) with
    | nil =>
      exfalso
      have h2 := List.append_eq_nil.mp hs
      exact absurd h2.1 (by decide)
    | cons c rest =>
      rw [hs] at hm
      exact reSearch_cons_some c rest t hm
  | cons c pre' ih =>
    rw [List.cons_append]
    have h0 : openTag.isPrefixOf (c :: (pre' ++ (openTag ++ (t ++ closeTag ++ post)))) = false := by
      cases hb : openTag.isPrefixOf (c :: (pre' ++ (openTag ++ (t ++ closeTag ++ post)))) with
      | false => rfl
      | true =>
        exfalso
        have h1 := honce 0 (by simp) (by rw [List.drop_zero, List.cons_append]; exact hb)
        rw [List.length_cons] at h1
        omega
    rw [reSearch_skip _ _ h0]
    apply ih
    intro i hi hp
    have h2 := honce (i + 1)
      (by rw [List.cons_append, List.length_cons]; omega)
      (by rw [List.cons_append, List.drop_succ_cons]; exact hp)
    rw [List.length_cons] at h2
    omega

/-- Witness for C1 at a concrete reply text whose block interior contains a
blank line. -/
theorem c1_extraction_verbatim_witness :
    (∀ i, i < (sampleReplyPre ++ (openTag ++ (sampleBody ++ closeTag ++ samplePost))).length →
      openTag.isPrefixOf
        ((sampleReplyPre ++ (openTag ++ (sampleBody ++ closeTag ++ samplePost))).drop i) = true →
      i = sampleReplyPre.length) ∧
    ¬ closeTag <:+: sampleBody ∧
    reSearchPythonBlock (sampleReplyPre ++ (openTag ++ (sampleBody ++ closeTag ++ samplePost)))
      = some sampleBody :=
  ⟨by decide, by decide,
   c1_extraction_verbatim sampleReplyPre sampleBody samplePost (by decide) (by decide)⟩

/-- C2 counterexample: the module name `numpy` is absent from the lookup
table, and it does not pass through unchanged — the generated package list
is empty, so the claim as stated is false. -/
theorem c2_counterexample :
    generate_requirements (["numpy"]) = [] ∧
    ¬ (("numpy").toList <:+: generate_requirements (["numpy"])) := by
  constructor
  · decide
  · decide

/-- C2 amended: each imported module name present in the lookup table maps
to its package name in the output, and module names absent from the table
are silently dropped — they leave no trace in the output (filtering them
away first changes nothing). -/
theorem c2_amended_known_mapped_unknown_dropped (imports : List String) :
    (∀ m p, m ∈ imports → tableGet m = some p →
      p.toList <:+: generate_requirements imports) ∧
    generate_requirements imports =
      generate_requirements (imports.filter (fun lib => (tableGet lib).isSome)) := by
  constructor
  · intro m p hm hp
    have hmem : p ∈ pkgList imports := by
      have hf : m ∈ imports.filter (fun lib => (tableGet lib).isSome) :=
        List.mem_filter.mpr ⟨hm, by rw [hp]; rfl⟩
      have hpd : p = (tableGet m).getD m := by rw [hp]; rfl
      rw [hpd]
      simp only [pkgList]
      exact List.mem_map_of_mem _ hf
    have hmem2 : p.toList ∈ (pkgList imports).map String.toList :=
      List.mem_map_of_mem _ hmem
    have hinf := mem_infix_intercalate ('\n') hmem2
    simp only [generate_requirements]
    exact hinf
  · simp only [generate_requirements, pkgList, List.filter_filter, Bool.and_self]

/-- Witness for C2 amended at a concrete import list. -/
theorem c2_amended_witness :
    ("PyGithub").toList <:+: generate_requirements (["github", "numpy"]) ∧
    generate_requirements (["github", "numpy"]) =
      generate_requirements ((["github", "numpy"]).filter
        (fun lib => (tableGet lib).isSome)) :=
  ⟨(c2_amended_known_mapped_unknown_dropped (["github", "numpy"])).1 ("github") ("PyGithub")
      (by decide) (by decide),
   (c2_amended_known_mapped_unknown_dropped (["github", "numpy"])).2⟩

/-- C3: whatever the imports of the generated source, the manifest the
deploy handler commits contains the line `streamlit`. -/
theorem c3_manifest_always_contains_streamlit (imports : List String) :
    ("streamlit").toList ∈ (finalRequirements imports).splitOn ('\n') := by
  simp only [finalRequirements]
  by_cases hs : strContains (generate_requirements imports) (("streamlit").toList) = true
  · rw [if_pos hs]
    simp only [strContains] at hs
    obtain ⟨k, hk⟩ := Option.isSome_iff_exists.mp hs
    have hpfx := isPrefixOf_drop_of_findPat _ _ k hk
    have hinf : ("streamlit").toList <:+: generate_requirements imports := by
      have h1 := List.isPrefixOf_iff_prefix.mp hpfx
      obtain ⟨r, hr⟩ := h1
      exact ⟨(generate_requirements imports).take k, r, by
        rw [List.append_assoc, hr, List.take_append_drop]⟩
    have hchunks := infix_intercalate_mem (by decide : ("streamlit").toList ≠ [])
      (by decide : ('\n') ∉ ("streamlit").toList)
      (by simp only [generate_requirements] at hinf; exact hinf)
    obtain ⟨c, hcm, hci⟩ := hchunks
    have hcv := pkgList_chunk_mem imports c hcm
    have hceq : c = ("streamlit").toList := by
      simp only [requirementsTable, List.map_cons, List.map_nil, List.mem_cons,
        List.not_mem_nil, or_false] at hcv
      rcases hcv with rfl | rfl | rfl | rfl | rfl | rfl | rfl | rfl
      · rfl
      · exact absurd hci (by decide)
      · exact absurd hci (by decide)
      · exact absurd hci (by decide)
      · exact absurd hci (by decide)
      · exact absurd hci (by decide)
      · exact absurd hci (by decide)
      · exact absurd hci (by decide)
    rw [← hceq]
    have hsplit : (generate_requirements imports).splitOn ('\n')
        = (pkgList imports).map String.toList := by
      simp only [generate_requirements]
      apply List.splitOn_intercalate
      · intro l hl
        exact chunk_no_newline l (pkgList_chunk_mem imports l hl)
      · exact List.ne_nil_of_mem hcm
    rw [hsplit]
    exact hcm
  · rw [if_neg hs]
    have hshape : ("streamlit\n").toList ++ generate_requirements imports
        = ("streamlit").toList ++ ('\n') :: generate_requirements imports := by
      rw [(by decide : ("streamlit\n").toList = ("streamlit").toList ++ [('\n')]),
        List.append_assoc, List.singleton_append]
    rw [hshape]
    have hfirst : (("streamlit").toList ++ ('\n') :: generate_requirements imports).splitOn ('\n')
        = ("streamlit").toList :: (generate_requirements imports).splitOn ('\n') := by
      simp only [List.splitOn]
      apply List.splitOnP_first
      · exact (by decide : ∀ y ∈ ("streamlit").toList, ¬((y == '\n') = true))
      · rfl
    rw [hfirst]
    exact List.mem_cons_self _ _

/-- C4 counterexample: with observed repositories `demo-app` and
`demo-app-abc12345` and random suffix `abc12345`, the publisher picks a
name that still collides with an existing repository, refuting the claim
that the new name differs from all names observed at call time. -/
theorem c4_counterexample :
    ("demo-app" : String) ∈ (["demo-app", "demo-app-abc12345"] : List String) ∧
    selectRepoName (["demo-app", "demo-app-abc12345"]) ("demo-app") ("abc12345")
      ∈ (["demo-app", "demo-app-abc12345"] : List String) := by
  constructor
  · decide
  · decide

/-- C4 amended: on a collision the publisher selects `name-suffix`, which
always differs from the originally intended name, but nothing guarantees it
differs from the other existing repository names. -/
theorem c4_amended_suffix_differs_from_original (existing : List String)
    (name suffix : String)
    (h : existing.any (fun r => r == name) = true) :
    selectRepoName existing name suffix = name ++ ("-") ++ suffix ∧
    selectRepoName existing name suffix ≠ name := by
  constructor
  · simp only [selectRepoName, if_pos h]
  · simp only [selectRepoName, if_pos h]
    intro he
    have hlen := congrArg String.length he
    rw [String.length_append, String.length_append] at hlen
    have hone : ("-" : String).length = 1 := rfl
    omega

/-- Witness for C4 amended at a concrete collision. -/
theorem c4_amended_witness :
    selectRepoName (["demo-app"]) ("demo-app") ("abc12345")
      = ("demo-app" : String) ++ ("-") ++ ("abc12345") ∧
    selectRepoName (["demo-app"]) ("demo-app") ("abc12345") ≠ "demo-app" :=
  c4_amended_suffix_differs_from_original (["demo-app"]) ("demo-app") ("abc12345") (by decide)

/-- C5: whenever the deploy handler reaches the secret-sealing step (the
preceding GitHub calls and the public-key fetch succeed), `encrypt_secret`
raises the `NameError` on `base64`; the handler therefore ends with the
seven repository files already pushed, no secret uploaded, no Heroku app
created and the ledger row never set to done. -/
theorem c5_deploy_always_dies_at_secret_seal (env : DeployEnv)
    (h1 : env.createRepoOk = true) (h2 : env.createFileOk = true)
    (h3 : raisesForStatus env.pubKeyStatus = false) :
    (deployStreamlit env).errorMsg = some base64NameError ∧
    (deployStreamlit env).createdFiles = deployFileNames ∧
    (deployStreamlit env).secretUploaded = false ∧
    (deployStreamlit env).herokuCreated = false ∧
    (deployStreamlit env).ledgerDone = false := by
  have hb : encrypt_secret env.sealFn env.pubKey env.herokuApiKey
      = Except.error base64NameError := rfl
  refine ⟨?_, ?_, ?_, ?_, ?_⟩ <;> simp [deployStreamlit, h1, h2, h3, hb]

/-- Witness for C5 in the all-remote-calls-succeed environment. -/
theorem c5_witness :
    (deployStreamlit happyDeployEnv).errorMsg = some base64NameError ∧
    (deployStreamlit happyDeployEnv).createdFiles = deployFileNames ∧
    (deployStreamlit happyDeployEnv).secretUploaded = false ∧
    (deployStreamlit happyDeployEnv).herokuCreated = false ∧
    (deployStreamlit happyDeployEnv).ledgerDone = false :=
  c5_deploy_always_dies_at_secret_seal happyDeployEnv rfl rfl (by decide)

/-- C6: every form submission evaluates the undefined name
`repo_name_input` after the generation step and outside any handler, so no
ledger row is ever inserted and no unique identifier is stored in the
session, whatever the generation outcome. -/
theorem c6_submission_never_inserts_row (env : SubmitEnv) :
    (submitHandler env).ledgerInserted = false ∧
    (submitHandler env).sessionUuid = none ∧
    (submitHandler env).uncaughtError = some repoNameInputError := by
  have hl : pyLookup ("repo_name_input") submissionScopeNames = none := by decide
  refine ⟨?_, ?_, ?_⟩ <;> simp [submitHandler, hl]

/-- C7: when the Heroku app-creation POST returns anything other than 201,
the deployment block halts: no CI workflow file is committed, no file is
re-committed, and the ledger row is not set to done. -/
theorem c7_non201_halts_before_ci (repoFullName : String) (env : DeployEnv)
    (base : DeployResult) (h : env.herokuStatus ≠ 201) :
    (herokuPhase repoFullName env base).herokuCreated = base.herokuCreated ∧
    (herokuPhase repoFullName env base).ciFileCommitted = base.ciFileCommitted ∧
    (herokuPhase repoFullName env base).updatedFiles = base.updatedFiles ∧
    (herokuPhase repoFullName env base).ledgerDone = base.ledgerDone ∧
    (herokuPhase repoFullName env base).stopped = true := by
  have hb : (env.herokuStatus == 201) = false := by
    rw [beq_eq_false_iff_ne]
    exact h
  refine ⟨?_, ?_, ?_, ?_, ?_⟩ <;> simp [herokuPhase, hb]

/-- Witness for C7 with a 503 from the platform. -/
theorem c7_witness :
    (herokuPhase ("demo-app") heroku503Env {}).herokuCreated = false ∧
    (herokuPhase ("demo-app") heroku503Env {}).ciFileCommitted = false ∧
    (herokuPhase ("demo-app") heroku503Env {}).updatedFiles = [] ∧
    (herokuPhase ("demo-app") heroku503Env {}).ledgerDone = false ∧
    (herokuPhase ("demo-app") heroku503Env {}).stopped = true := by
  have h := c7_non201_halts_before_ci ("demo-app") heroku503Env {} (by decide)
  exact ⟨h.1, h.2.1, h.2.2.1, h.2.2.2.1, h.2.2.2.2⟩

/-- C8: over any sequence of ledger operations the program can issue, a row
whose status is done never reverts — and a freshly created row carries the
in-progress status. -/
theorem c8_ledger_status_only_forward (ops : List LedgerOp) (s : Ledger) (rid : Nat)
    (hops : ∀ op ∈ ops, ProgramOp op) (hdone : getStatus s rid = some doneStatus) :
    getStatus (applyOps s ops) rid = some doneStatus ∧
    getStatus (applyOp s (LedgerOp.create inProgressStatus)) (freshId s)
      = some inProgressStatus :=
  ⟨status_forward ops s rid hops hdone, getStatus_create_fresh s inProgressStatus⟩

/-- Witness for C8 on a concrete ledger and program-issued operations. -/
theorem c8_witness :
    getStatus (applyOps ([(1, doneStatus)])
      ([LedgerOp.update 1 doneStatus, LedgerOp.create inProgressStatus])) 1
      = some doneStatus ∧
    getStatus (applyOp ([(1, doneStatus)]) (LedgerOp.create inProgressStatus))
      (freshId ([(1, doneStatus)])) = some inProgressStatus :=
  c8_ledger_status_only_forward
    ([LedgerOp.update 1 doneStatus, LedgerOp.create inProgressStatus])
    ([(1, doneStatus)]) 1
    (by
      intro op hop
      simp only [List.mem_cons, List.not_mem_nil, or_false] at hop
      rcases hop with rfl | rfl
      · exact Or.inr ⟨1, rfl⟩
      · exact Or.inl rfl)
    rfl

/-- C9 counterexample: a final webhook status of 304 is not 2xx, yet the
trigger reports success, not failure (it does leave the ledger untouched). -/
theorem c9_counterexample :
    (304 < 200 ∨ 300 ≤ 304) ∧
    (auxTrigger true 304).failureReported = false ∧
    (auxTrigger true 304).successReported = true ∧
    (auxTrigger true 304).ledgerOps = [] := by
  decide

/-- C9 amended: the trigger reports failure exactly on statuses that
`raise_for_status` rejects (4xx/5xx, not every non-2xx): on a 4xx/5xx
status it reports failure, on every other final status (2xx, but also
informational/redirect statuses such as 304) it reports success, and it
performs no ledger write for any status. -/
theorem c9_amended_4xx5xx_fails_no_ledger_write (hasUuid : Bool) (status : Nat) :
    (auxTrigger hasUuid status).ledgerOps = [] ∧
    (hasUuid = true → 400 ≤ status → status < 600 →
      (auxTrigger hasUuid status).failureReported = true) ∧
    (hasUuid = true → ¬ (400 ≤ status ∧ status < 600) →
      (auxTrigger hasUuid status).successReported = true ∧
      (auxTrigger hasUuid status).failureReported = false) := by
  refine ⟨?_, ?_, ?_⟩
  · cases hasUuid <;> by_cases hr : raisesForStatus status = true <;>
      simp [auxTrigger, hr]
  · intro hu h4 h6
    subst hu
    have hr : raisesForStatus status = true := decide_eq_true ⟨h4, h6⟩
    simp [auxTrigger, hr]
  · intro hu hn
    subst hu
    have hr : raisesForStatus status = false := decide_eq_false hn
    constructor <;> simp [auxTrigger, hr]

/-- Witness for C9 amended: failure and no ledger write at a 500 status,
success at a 204 status. -/
theorem c9_amended_witness :
    (auxTrigger true 500).ledgerOps = [] ∧
    (auxTrigger true 500).failureReported = true ∧
    (auxTrigger true 204).successReported = true :=
  ⟨(c9_amended_4xx5xx_fails_no_ledger_write true 500).1,
   (c9_amended_4xx5xx_fails_no_ledger_write true 500).2.1 rfl (by omega) (by omega),
   ((c9_amended_4xx5xx_fails_no_ledger_write true 204).2.2 rfl (by omega)).1⟩

/-- C10: dependency inference is deterministic as a set — any two
enumerations of the extracted import set yield package lists that are equal
as sets. -/
theorem c10_requirements_set_deterministic (tree : List PyStmt) (l1 l2 : List String)
    (h1 : l1.Nodup) (h2 : l2.Nodup)
    (e1 : l1.toFinset = (extract_imports tree).toFinset)
    (e2 : l2.toFinset = (extract_imports tree).toFinset) :
    (pkgList l1).toFinset = (pkgList l2).toFinset := by
  have hperm : l1.Perm l2 :=
    List.perm_of_nodup_nodup_toFinset_eq h1 h2 (e1.trans e2.symm)
  have hp2 : (pkgList l1).Perm (pkgList l2) := by
    simp only [pkgList]
    exact List.Perm.map _ (List.Perm.filter _ hperm)
  exact List.toFinset_eq_of_perm _ _ hp2

/-- Witness for C10 on two different enumerations of the same import set. -/
theorem c10_witness :
    (pkgList (["nacl", "os"])).toFinset = (pkgList (["os", "nacl"])).toFinset :=
  c10_requirements_set_deterministic ([PyStmt.imp (["os", "nacl.public"])])
    (["nacl", "os"]) (["os", "nacl"]) (by decide) (by decide) (by decide) (by decide)

end Airlyft
